import Mathlib

/-!
Shallow embedding of the product CRUD service in `backend/server.py`.

The MongoDB collection is modelled as a `List Product` in natural
(insertion) order: `find_one({"id": i})` is `List.find?` on the id,
`insert_one` appends, `update_one` with a `$set` rewrites the first
matching document, `delete_one` erases the first matching document.
Timestamps (`datetime.utcnow()`) are modelled as a `Nat` clock value
passed explicitly to each operation; prices (Python floats compared
only with `> 0`) are modelled as `Rat`.  The `$regex`/`$options: "i"`
category filter is modelled as case-insensitive substring containment,
following the design note that no regex metacharacter semantics are
relied upon.  Pydantic request validation (which FastAPI runs before
the handler body) is folded into each operation's front.
-/

set_option autoImplicit false

namespace ProductService

/-- A stored product document, mirroring the fields of the `Product`
pydantic model in `server.py`. -/
structure Product where
  id : String
  name : String
  description : String
  price : Rat
  category : String
  stock_quantity : Int
  image_url : Option String
  created_at : Nat
  updated_at : Nat
  deriving DecidableEq, Repr

/-- The create payload (`ProductCreate` / `ProductBase` in `server.py`):
all fields required except `image_url`. -/
structure ProductInput where
  name : String
  description : String
  price : Rat
  category : String
  stock_quantity : Int
  image_url : Option String := none
  deriving DecidableEq, Repr

/-- The update payload (`ProductUpdate` in `server.py`).  `none` stands
for "absent or explicitly null": the handler skips a field when its
value `is None`, so the two cases are indistinguishable. -/
structure UpdatePayload where
  name : Option String := none
  description : Option String := none
  price : Option Rat := none
  category : Option String := none
  stock_quantity : Option Int := none
  image_url : Option String := none
  deriving DecidableEq, Repr

/-- The error outcomes of the service, per the spec's taxonomy.
`validationError` carries the names of the offending fields (pydantic
reports every violated field); `notFound` carries the missing id. -/
inductive ApiError where
  | validationError (fields : List String)
  | notFound (id : String)
  | internalError
  deriving DecidableEq, Repr

instance {ε α : Type} [DecidableEq ε] [DecidableEq α] : DecidableEq (Except ε α) := fun x y =>
  match x, y with
  | .ok a, .ok b =>
    if h : a = b then .isTrue (h ▸ rfl) else .isFalse fun hh => h (Except.ok.inj hh)
  | .error a, .error b =>
    if h : a = b then .isTrue (h ▸ rfl) else .isFalse fun hh => h (Except.error.inj hh)
  | .ok _, .error _ => .isFalse fun hh => Except.noConfusion hh
  | .error _, .ok _ => .isFalse fun hh => Except.noConfusion hh

/-- The state of the products collection: documents in natural order. -/
abbrev Store := List Product

/-- One pydantic `Field` check on a required field: names the field
when its constraint fails. -/
def checkField (field : String) (ok : Prop) [Decidable ok] : List String :=
  if ok then [] else [field]

/-- One pydantic `Field` check on an optional field: the constraint
applies only when the field is present (non-null). -/
def checkOpt {α : Type} (field : String) (v : Option α) (ok : α → Prop)
    [DecidablePred ok] : List String :=
  match v with
  | some x => if ok x then [] else [field]
  | none => []

/-- Field validation for the create payload, from the `Field`
constraints on `ProductBase`: `name` length 1–200, `description`
length 1–1000, `price > 0`, `category` length 1–100,
`stock_quantity ≥ 0`; `image_url` unconstrained.  Returns the names of
all violated fields, in declaration order; `[]` means valid. -/
def validateCreate (input : ProductInput) : List String :=
  checkField "name" (1 ≤ input.name.length ∧ input.name.length ≤ 200) ++
  checkField "description" (1 ≤ input.description.length ∧ input.description.length ≤ 1000) ++
  checkField "price" (0 < input.price) ++
  checkField "category" (1 ≤ input.category.length ∧ input.category.length ≤ 100) ++
  checkField "stock_quantity" (0 ≤ input.stock_quantity)

/-- Field validation for the update payload, from the `Field`
constraints on `ProductUpdate`. -/
def validateUpdate (u : UpdatePayload) : List String :=
  checkOpt "name" u.name (fun v => 1 ≤ v.length ∧ v.length ≤ 200) ++
  checkOpt "description" u.description (fun v => 1 ≤ v.length ∧ v.length ≤ 1000) ++
  checkOpt "price" u.price (fun v => 0 < v) ++
  checkOpt "category" u.category (fun v => 1 ≤ v.length ∧ v.length ≤ 100) ++
  checkOpt "stock_quantity" u.stock_quantity (fun v => 0 ≤ v)

/-- `product_helper`: projects a stored document onto the response
shape.  Documents carry exactly the response fields, so this is the
identity; it is kept to mirror the source. -/
def product_helper (p : Product) : Product := p

/-- The document `create_product` builds: the validated input plus the
generated id and `created_at = updated_at = now`. -/
def newDoc (input : ProductInput) (product_id : String) (now : Nat) : Product :=
  { id := product_id
    name := input.name
    description := input.description
    price := input.price
    category := input.category
    stock_quantity := input.stock_quantity
    image_url := input.image_url
    created_at := now
    updated_at := now }

/-- `create_product` (POST `/api/products`).  Pydantic validation of the
payload runs first; on success the handler builds the document with a
fresh `product_id` and `created_at = updated_at = now`, appends it to
the collection (`insert_one`), re-reads it (`find_one` on the id) and
returns the re-read document.  The `find_one`-returns-nothing branch is
the source's 500 path. -/
def create_product (s : Store) (input : ProductInput) (product_id : String) (now : Nat) :
    Except ApiError Product × Store :=
  match validateCreate input with
  | f :: fs => (.error (.validationError (f :: fs)), s)
  | [] =>
    let s' := s ++ [newDoc input product_id now]
    match s'.find? (fun p => p.id == product_id) with
    | some created => (.ok (product_helper created), s')
    | none => (.error .internalError, s')

/-- `get_product` (GET `/api/products/{id}`): point lookup by id,
404 when absent.  Read-only, so no store is returned. -/
def get_product (s : Store) (product_id : String) : Except ApiError Product :=
  match s.find? (fun p => p.id == product_id) with
  | some p => .ok (product_helper p)
  | none => .error (.notFound product_id)

/-- True when the update payload supplies at least one non-null field,
i.e. when the handler's `update_data` dict is non-empty. -/
def hasUpdates (u : UpdatePayload) : Bool :=
  u.name.isSome || u.description.isSome || u.price.isSome ||
  u.category.isSome || u.stock_quantity.isSome || u.image_url.isSome

/-- The effect of the handler's `$set` on the matched document: each
non-null payload field replaces the stored value, `updated_at` is set
to `now`, everything else is untouched. -/
def applyUpdate (p : Product) (u : UpdatePayload) (now : Nat) : Product :=
  { p with
    name := u.name.getD p.name
    description := u.description.getD p.description
    price := u.price.getD p.price
    category := u.category.getD p.category
    stock_quantity := u.stock_quantity.getD p.stock_quantity
    image_url := u.image_url.or p.image_url
    updated_at := now }

/-- `update_one` with filter `{"id": i}`: rewrite the first document
whose id matches; no-op when no document matches. -/
def replaceFirst : Store → String → Product → Store
  | [], _, _ => []
  | p :: ps, i, d => if p.id == i then d :: ps else p :: replaceFirst ps i d

/-- `update_product` (PUT `/api/products/{id}`).  Pydantic validation of
the payload runs first; then the handler reads the existing document
(404 when absent), collects the non-null payload fields, and if any are
present issues a `$set` that also refreshes `updated_at`.  Mongo
reports `modified_count = 0` when the `$set` leaves the document
byte-identical, which the handler turns into a 500; otherwise the
document is re-read and returned.  With no non-null field the existing
document is returned unchanged. -/
def update_product (s : Store) (product_id : String) (u : UpdatePayload) (now : Nat) :
    Except ApiError Product × Store :=
  match validateUpdate u with
  | f :: fs => (.error (.validationError (f :: fs)), s)
  | [] =>
    match s.find? (fun p => p.id == product_id) with
    | none => (.error (.notFound product_id), s)
    | some existing =>
      if hasUpdates u then
        let newDoc := applyUpdate existing u now
        let s' := replaceFirst s product_id newDoc
        if newDoc = existing then
          (.error .internalError, s')
        else
          match s'.find? (fun p => p.id == product_id) with
          | some updated => (.ok (product_helper updated), s')
          | none => (.error .internalError, s')
      else
        (.ok (product_helper existing), s)

/-- `delete_product` (DELETE `/api/products/{id}`): `delete_one` on the
id removes the first matching document; `deleted_count = 1` yields 204
with no body, otherwise 404. -/
def delete_product (s : Store) (product_id : String) : Except ApiError Unit × Store :=
  let s' := s.eraseP (fun p => p.id == product_id)
  if s.any (fun p => p.id == product_id) then (.ok (), s') else (.error (.notFound product_id), s')

/-- Contiguous-sublist containment: `containsSub pat l` is true when
`pat` occurs as a contiguous run inside `l`. -/
def containsSub (pat : List Char) : List Char → Bool
  | [] => pat.isEmpty
  | c :: rest => pat.isPrefixOf (c :: rest) || containsSub pat rest

/-- The characters of a string, lowercased (the char-level semantics of
`String.toLower`). -/
def lowerChars (s : String) : List Char := s.toList.map Char.toLower

/-- The `{"$regex": category, "$options": "i"}` filter, modelled as
case-insensitive substring containment of the filter string in the
stored `category`. -/
def matchesCategory (filter : String) (p : Product) : Bool :=
  containsSub (lowerChars filter) (lowerChars p.category)

/-- The descending `created_at` order used by `sort("created_at", -1)`. -/
def createdDesc (a b : Product) : Prop := b.created_at ≤ a.created_at

instance : DecidableRel createdDesc := fun a b => Nat.decLe b.created_at a.created_at

instance : IsTotal Product createdDesc :=
  ⟨fun a b => (Nat.le_total b.created_at a.created_at).imp id id⟩

instance : IsTrans Product createdDesc :=
  ⟨fun _ _ _ hab hbc => Nat.le_trans hbc hab⟩

/-- The server-side sort by `created_at` descending. -/
def sortByCreatedDesc (l : List Product) : List Product :=
  l.insertionSort createdDesc

/-- Mongo's `skip`/`limit` window over the sorted result; `limit 0`
means no limit. -/
def applyWindow (l : List Product) (skip limit : Nat) : List Product :=
  if limit = 0 then l.drop skip else (l.drop skip).take limit

/-- `get_products` (GET `/api/products?skip=&limit=&category=`): builds
the filter query only when `category` is truthy (present and
non-empty), then runs find → sort(`created_at` desc) → skip → limit,
the order Mongo applies cursor options in. -/
def get_products (s : Store) (skip limit : Nat) (category : Option String) : List Product :=
  let query : Product → Bool := fun p =>
    match category with
    | some c => if c = "" then true else matchesCategory c p
    | none => true
  (applyWindow (sortByCreatedDesc (s.filter query)) skip limit).map product_helper

/-- `get_products_by_category` (GET `/api/products/category/{category}`):
always applies the regex filter, then the same sort/skip/limit chain. -/
def get_products_by_category (s : Store) (category : String) (skip limit : Nat) :
    List Product :=
  (applyWindow (sortByCreatedDesc (s.filter (matchesCategory category))) skip limit).map
    product_helper

/-- The spec's per-product field constraints on a stored document. -/
def validProduct (p : Product) : Prop :=
  1 ≤ p.name.length ∧ p.name.length ≤ 200 ∧
  1 ≤ p.description.length ∧ p.description.length ≤ 1000 ∧
  0 < p.price ∧
  1 ≤ p.category.length ∧ p.category.length ≤ 100 ∧
  0 ≤ p.stock_quantity

instance : DecidablePred validProduct := fun p => by unfold validProduct; infer_instance

/-- The spec's store invariant: every live document satisfies the field
constraints and has `created_at ≤ updated_at`, and ids are unique. -/
def StoreInv (s : Store) : Prop :=
  (∀ p ∈ s, validProduct p ∧ p.created_at ≤ p.updated_at) ∧
  (s.map (fun p => p.id)).Nodup

instance (s : Store) : Decidable (StoreInv s) := by unfold StoreInv; infer_instance

/-- `fieldViolated input f` holds when the create input breaks the
constraint of the field named `f` (the constraints of the claim:
length bounds on the three strings, positive price, non-negative
stock). -/
def fieldViolated (input : ProductInput) (f : String) : Prop :=
  (f = "name" ∧ ¬ (1 ≤ input.name.length ∧ input.name.length ≤ 200)) ∨
  (f = "description" ∧ ¬ (1 ≤ input.description.length ∧ input.description.length ≤ 1000)) ∨
  (f = "price" ∧ ¬ (0 < input.price)) ∨
  (f = "category" ∧ ¬ (1 ≤ input.category.length ∧ input.category.length ≤ 100)) ∨
  (f = "stock_quantity" ∧ ¬ (0 ≤ input.stock_quantity))

instance (input : ProductInput) (f : String) : Decidable (fieldViolated input f) := by
  unfold fieldViolated; infer_instance

/-- `idAbsent s i`: no live document carries id `i`. -/
def idAbsent (s : Store) (i : String) : Prop := ∀ p ∈ s, p.id ≠ i

/-- A service operation, for reasoning about sequences of calls. -/
inductive Op where
  | create (input : ProductInput) (pid : String) (now : Nat)
  | update (pid : String) (u : UpdatePayload) (now : Nat)
  | delete (pid : String)

/-- The store after one operation. -/
def applyOp (s : Store) : Op → Store
  | .create input pid now => (create_product s input pid now).2
  | .update pid u now => (update_product s pid u now).2
  | .delete pid => (delete_product s pid).2

/-- The store after a sequence of operations. -/
def runOps : Store → List Op → Store
  | s, [] => s
  | s, op :: ops => runOps (applyOp s op) ops

/-- `createsId op i`: the operation is a create that would insert id `i`. -/
def createsId : Op → String → Prop
  | .create _ pid _, i => pid = i
  | _, _ => False

@[simp] theorem checkField_eq_nil {field : String} {ok : Prop} [Decidable ok] :
    checkField field ok = [] ↔ ok := by
  unfold checkField; split <;> simp_all

@[simp] theorem mem_checkField {f field : String} {ok : Prop} [Decidable ok] :
    f ∈ checkField field ok ↔ f = field ∧ ¬ ok := by
  unfold checkField; split <;> simp_all

@[simp] theorem checkOpt_eq_nil {α : Type} {field : String} {v : Option α} {ok : α → Prop}
    [DecidablePred ok] : checkOpt field v ok = [] ↔ ∀ x, v = some x → ok x := by
  unfold checkOpt
  cases v with
  | none => simp
  | some x => split <;> simp_all

@[simp] theorem mem_checkOpt {α : Type} {f field : String} {v : Option α} {ok : α → Prop}
    [DecidablePred ok] :
    f ∈ checkOpt field v ok ↔ f = field ∧ ∃ x, v = some x ∧ ¬ ok x := by
  unfold checkOpt
  cases v with
  | none => simp
  | some x => split <;> simp_all [And.comm]

theorem validateCreate_eq_nil {input : ProductInput} :
    validateCreate input = [] ↔
      (1 ≤ input.name.length ∧ input.name.length ≤ 200) ∧
      (1 ≤ input.description.length ∧ input.description.length ≤ 1000) ∧
      (0 < input.price) ∧
      (1 ≤ input.category.length ∧ input.category.length ≤ 100) ∧
      (0 ≤ input.stock_quantity) := by
  simp [validateCreate, List.append_eq_nil]

theorem validateUpdate_eq_nil {u : UpdatePayload} :
    validateUpdate u = [] ↔
      (∀ v, u.name = some v → 1 ≤ v.length ∧ v.length ≤ 200) ∧
      (∀ v, u.description = some v → 1 ≤ v.length ∧ v.length ≤ 1000) ∧
      (∀ v, u.price = some v → 0 < v) ∧
      (∀ v, u.category = some v → 1 ≤ v.length ∧ v.length ≤ 100) ∧
      (∀ v, u.stock_quantity = some v → 0 ≤ v) := by
  simp [validateUpdate, List.append_eq_nil]

theorem find?_id_eq_none {s : Store} {pid : String} (habs : ∀ p ∈ s, p.id ≠ pid) :
    s.find? (fun p => p.id == pid) = none := by
  rw [List.find?_eq_none]
  intro x hx
  simpa using habs x hx

theorem id_eq_of_find? {s : Store} {pid : String} {q : Product}
    (h : s.find? (fun p => p.id == pid) = some q) : q.id = pid := by
  simpa using List.find?_some h

theorem mem_of_find? {s : Store} {pid : String} {q : Product}
    (h : s.find? (fun p => p.id == pid) = some q) : q ∈ s :=
  List.mem_of_find?_eq_some h

theorem find?_replaceFirst {s : Store} {pid : String} {d : Product} (hd : d.id = pid)
    {q : Product} (hq : s.find? (fun p => p.id == pid) = some q) :
    (replaceFirst s pid d).find? (fun p => p.id == pid) = some d := by
  induction s with
  | nil => simp at hq
  | cons p ps ih =>
    simp only [replaceFirst]
    by_cases hp : (p.id == pid) = true
    · rw [if_pos hp]
      exact @List.find?_cons_of_pos _ (fun q => q.id == pid) d ps (by simpa using hd)
    · rw [if_neg hp, @List.find?_cons_of_neg _ (fun q => q.id == pid) p _ hp]
      rw [@List.find?_cons_of_neg _ (fun q => q.id == pid) p ps hp] at hq
      exact ih hq

theorem replaceFirst_self {s : Store} {pid : String} {q : Product}
    (hq : s.find? (fun p => p.id == pid) = some q) :
    replaceFirst s pid q = s := by
  induction s with
  | nil => rfl
  | cons p ps ih =>
    simp only [replaceFirst]
    by_cases hp : (p.id == pid) = true
    · rw [if_pos hp]
      rw [@List.find?_cons_of_pos _ (fun q => q.id == pid) p ps hp] at hq
      rw [Option.some.inj hq]
    · rw [if_neg hp]
      rw [@List.find?_cons_of_neg _ (fun q => q.id == pid) p ps hp] at hq
      rw [ih hq]

theorem map_id_replaceFirst {s : Store} {pid : String} {d : Product} (hd : d.id = pid) :
    (replaceFirst s pid d).map (fun p => p.id) = s.map (fun p => p.id) := by
  induction s with
  | nil => rfl
  | cons p ps ih =>
    simp only [replaceFirst]
    by_cases hp : (p.id == pid) = true
    · rw [if_pos hp]
      have hpid : p.id = pid := by simpa using hp
      simp [List.map_cons, hd, hpid]
    · rw [if_neg hp]
      simp [List.map_cons, ih]

theorem mem_replaceFirst {s : Store} {pid : String} {d x : Product}
    (hx : x ∈ replaceFirst s pid d) : x = d ∨ x ∈ s := by
  induction s with
  | nil => simp [replaceFirst] at hx
  | cons p ps ih =>
    simp only [replaceFirst] at hx
    by_cases hp : (p.id == pid) = true
    · rw [if_pos hp] at hx
      rcases List.mem_cons.mp hx with h | h
      · exact .inl h
      · exact .inr (List.mem_cons_of_mem _ h)
    · rw [if_neg hp] at hx
      rcases List.mem_cons.mp hx with h | h
      · exact .inr (h ▸ List.mem_cons_self _ _)
      · rcases ih h with h1 | h1
        · exact .inl h1
        · exact .inr (List.mem_cons_of_mem _ h1)

theorem idAbsent_eraseP {s : Store} {pid : String}
    (huniq : (s.map (fun p => p.id)).Nodup) :
    idAbsent (s.eraseP (fun p => p.id == pid)) pid := by
  induction s with
  | nil => intro q hq; simp at hq
  | cons p ps ih =>
    simp only [List.map_cons, List.nodup_cons] at huniq
    obtain ⟨hnotin, hnodup⟩ := huniq
    by_cases hp : (p.id == pid) = true
    · rw [@List.eraseP_cons_of_pos _ p ps (fun q => q.id == pid) hp]
      intro q hq hqid
      apply hnotin
      have hpid : p.id = pid := by simpa using hp
      rw [hpid, ← hqid]
      exact List.mem_map_of_mem _ hq
    · rw [@List.eraseP_cons_of_neg _ p ps (fun q => q.id == pid) hp]
      intro q hq hqid
      rcases List.mem_cons.mp hq with h | h
      · subst h
        exact hp (by simp [hqid])
      · exact ih hnodup q h hqid

theorem eq_default_of_not_hasUpdates {u : UpdatePayload} (h : hasUpdates u = false) :
    u = {} := by
  rcases u with ⟨n, d, p, c, q, i⟩
  cases n <;> cases d <;> cases p <;> cases c <;> cases q <;> cases i <;>
    simp_all [hasUpdates]

theorem containsSub_nil (l : List Char) : containsSub [] l = true := by
  induction l with
  | nil => rfl
  | cons c rest ih => simp [containsSub, List.isPrefixOf]

theorem matchesCategory_empty (p : Product) : matchesCategory "" p = true := by
  have h0 : lowerChars "" = ([] : List Char) := by decide
  unfold matchesCategory
  rw [h0]
  exact containsSub_nil _

@[simp] theorem map_product_helper (l : List Product) : l.map product_helper = l := by
  induction l with
  | nil => rfl
  | cons p ps ih => simp [product_helper, ih]

theorem create_product_state (s : Store) (input : ProductInput) (pid : String) (now : Nat) :
    (create_product s input pid now).2 =
      if validateCreate input = [] then s ++ [newDoc input pid now] else s := by
  cases hv : validateCreate input with
  | cons a as => simp [create_product, hv]
  | nil =>
    simp only [create_product, hv, if_pos]
    cases hfind : (s ++ [newDoc input pid now]).find? (fun p => p.id == pid) <;>
      simp [hfind]

theorem update_product_state (s : Store) (pid : String) (u : UpdatePayload) (now : Nat) :
    (update_product s pid u now).2 = s ∨
    (validateUpdate u = [] ∧ hasUpdates u = true ∧
      ∃ existing, s.find? (fun p => p.id == pid) = some existing ∧
        (update_product s pid u now).2 =
          replaceFirst s pid (applyUpdate existing u now)) := by
  cases hv : validateUpdate u with
  | cons a as => left; simp [update_product, hv]
  | nil =>
    cases hfind : s.find? (fun p => p.id == pid) with
    | none => left; simp [update_product, hv, hfind]
    | some existing =>
      by_cases hupd : hasUpdates u = true
      · right
        refine ⟨rfl, hupd, existing, rfl, ?_⟩
        by_cases heq : applyUpdate existing u now = existing
        · simp [update_product, hv, hfind, hupd, heq]
        · have hid : (applyUpdate existing u now).id = pid := by
            simpa [applyUpdate] using id_eq_of_find? hfind
          have hre := find?_replaceFirst hid hfind
          simp [update_product, hv, hfind, hupd, heq, hre]
      · left
        simp [update_product, hv, hfind, hupd]

theorem delete_product_state (s : Store) (pid : String) :
    (delete_product s pid).2 = s.eraseP (fun p => p.id == pid) := by
  unfold delete_product
  split <;> rfl

theorem validProduct_applyUpdate {p : Product} {u : UpdatePayload} {now : Nat}
    (hp : validProduct p) (hu : validateUpdate u = []) :
    validProduct (applyUpdate p u now) := by
  obtain ⟨h1, h2, h3, h4, h5⟩ := validateUpdate_eq_nil.mp hu
  obtain ⟨p1, p2, p3, p4, p5, p6, p7, p8⟩ := hp
  unfold validProduct applyUpdate
  cases hn : u.name <;> cases hd : u.description <;> cases hq : u.price <;>
    cases hc : u.category <;> cases hs : u.stock_quantity <;>
      simp_all

theorem mem_validateCreate {input : ProductInput} {f : String} :
    f ∈ validateCreate input ↔ fieldViolated input f := by
  simp only [validateCreate, List.mem_append, mem_checkField, fieldViolated]
  tauto

/-- A concrete valid stored product, used to instantiate theorems. -/
def sampleProduct : Product :=
  { id := "a", name := "Mug", description := "Ceramic mug", price := 10,
    category := "Kitchen", stock_quantity := 100, image_url := none,
    created_at := 1, updated_at := 1 }

/-- A concrete valid create payload, used to instantiate theorems. -/
def sampleInput : ProductInput :=
  { name := "Pan", description := "Steel pan", price := 25,
    category := "Kitchen", stock_quantity := 5 }

/-- C1: for every valid create input and fresh id, `create` succeeds and
returns a product whose id is the generated one, whose `created_at`
equals its `updated_at`, and whose remaining fields equal the input;
`getById` on the returned id then yields that same product with no
field mutated. -/
theorem create_then_get_roundtrip (s : Store) (input : ProductInput) (pid : String)
    (now : Nat) (hvalid : validateCreate input = []) (hfresh : ∀ p ∈ s, p.id ≠ pid) :
    ∃ prod : Product,
      create_product s input pid now = (.ok prod, s ++ [prod]) ∧
      prod.id = pid ∧ prod.created_at = prod.updated_at ∧ prod.created_at = now ∧
      prod.name = input.name ∧ prod.description = input.description ∧
      prod.price = input.price ∧ prod.category = input.category ∧
      prod.stock_quantity = input.stock_quantity ∧ prod.image_url = input.image_url ∧
      get_product (create_product s input pid now).2 pid = .ok prod := by
  have hfind : (s ++ [newDoc input pid now]).find? (fun p => p.id == pid) =
      some (newDoc input pid now) := by
    rw [List.find?_append, find?_id_eq_none hfresh]
    simp [newDoc]
  have hcreate : create_product s input pid now =
      (.ok (newDoc input pid now), s ++ [newDoc input pid now]) := by
    simp [create_product, hvalid, hfind, product_helper]
  refine ⟨newDoc input pid now, hcreate, rfl, rfl, rfl, rfl, rfl, rfl, rfl, rfl, rfl, ?_⟩
  rw [hcreate]
  simp [get_product, hfind, product_helper]

theorem create_then_get_roundtrip_witness :
    validateCreate sampleInput = [] ∧ (∀ p ∈ ([sampleProduct] : Store), p.id ≠ "b") ∧
    (∃ prod : Product,
      create_product [sampleProduct] sampleInput "b" 7 = (.ok prod, [sampleProduct] ++ [prod]) ∧
      prod.id = "b" ∧ prod.created_at = prod.updated_at ∧ prod.created_at = 7 ∧
      prod.name = sampleInput.name ∧ prod.description = sampleInput.description ∧
      prod.price = sampleInput.price ∧ prod.category = sampleInput.category ∧
      prod.stock_quantity = sampleInput.stock_quantity ∧
      prod.image_url = sampleInput.image_url ∧
      get_product (create_product [sampleProduct] sampleInput "b" 7).2 "b" = .ok prod) :=
  ⟨by decide, by decide,
    create_then_get_roundtrip [sampleProduct] sampleInput "b" 7 (by decide) (by decide)⟩

/-- C2 (counterexample): on an id absent from the store, `update` with a
payload whose present field is invalid fails with `ValidationError`,
not `NotFound` — FastAPI validates the body before the handler checks
existence.  So "update(id, partial) for any partial fails with
NotFound" is false as stated. -/
theorem update_absent_invalid_payload_cx :
    (update_product [] "missing" { price := some (-1) } 0).1 =
      .error (.validationError ["price"]) ∧
    (update_product [] "missing" { price := some (-1) } 0).1 ≠
      .error (.notFound "missing") := by
  constructor
  · decide
  · decide

/-- C2 (amended): for every id not present in the store, `getById`
fails with `NotFound`; `update` with any payload that passes field
validation fails with `NotFound` and leaves the store unchanged; and
`delete` fails with `NotFound` and leaves the store unchanged. -/
theorem absent_id_ops_notFound (s : Store) (pid : String) (u : UpdatePayload) (now : Nat)
    (habs : ∀ p ∈ s, p.id ≠ pid) (hu : validateUpdate u = []) :
    get_product s pid = .error (.notFound pid) ∧
    update_product s pid u now = (.error (.notFound pid), s) ∧
    delete_product s pid = (.error (.notFound pid), s) := by
  have hfind := find?_id_eq_none habs
  refine ⟨?_, ?_, ?_⟩
  · simp [get_product, hfind]
  · simp [update_product, hu, hfind]
  · have hany : s.any (fun p => p.id == pid) = false := by
      rw [List.any_eq_false]
      intro p hp
      simpa using habs p hp
    have herase : s.eraseP (fun p => p.id == pid) = s :=
      List.eraseP_of_forall_not (by intro p hp; simpa using habs p hp)
    simp [delete_product, hany, herase]

theorem absent_id_ops_notFound_witness :
    (∀ p ∈ ([sampleProduct] : Store), p.id ≠ "zzz") ∧
    (get_product [sampleProduct] "zzz" = .error (.notFound "zzz") ∧
      update_product [sampleProduct] "zzz" {} 3 = (.error (.notFound "zzz"), [sampleProduct]) ∧
      delete_product [sampleProduct] "zzz" = (.error (.notFound "zzz"), [sampleProduct])) :=
  ⟨by decide, absent_id_ops_notFound [sampleProduct] "zzz" {} 3 (by decide) rfl⟩

/-- C4: on an existing product, `update` with a valid price and nothing
else rewrites exactly that document to one differing only in `price`
and `updated_at`, returns it, and `updated_at` strictly increases
(given the clock advanced past the stored `updated_at`). -/
theorem update_price_frame (s : Store) (pid : String) (q : Rat) (now : Nat)
    (existing : Product) (hfind : s.find? (fun p => p.id == pid) = some existing)
    (hq : 0 < q) (hnow : existing.updated_at < now) :
    update_product s pid { price := some q } now =
      (.ok ({ existing with price := q, updated_at := now }),
        replaceFirst s pid ({ existing with price := q, updated_at := now })) ∧
    existing.updated_at <
      ({ existing with price := q, updated_at := now } : Product).updated_at := by
  have hval : validateUpdate { price := some q } = [] :=
    validateUpdate_eq_nil.mpr (by refine ⟨?_, ?_, ?_, ?_, ?_⟩ <;> intro v hv <;> simp_all)
  have happ : applyUpdate existing { price := some q } now =
      { existing with price := q, updated_at := now } := by
    simp [applyUpdate]
  have hne : ({ existing with price := q, updated_at := now } : Product) ≠ existing := by
    intro h
    have h2 := congrArg Product.updated_at h
    simp at h2
    omega
  have hid : ({ existing with price := q, updated_at := now } : Product).id = pid := by
    simpa using id_eq_of_find? hfind
  have hre := find?_replaceFirst hid hfind
  constructor
  · have hupd : hasUpdates { price := some q } = true := rfl
    simp [update_product, hval, hfind, hupd, happ, hne, hre, product_helper]
  · simpa using hnow

theorem update_price_frame_witness :
    [sampleProduct].find? (fun p => p.id == "a") = some sampleProduct ∧
    (0 : Rat) < 42 ∧ sampleProduct.updated_at < 9 ∧
    (update_product [sampleProduct] "a" { price := some 42 } 9 =
      (.ok ({ sampleProduct with price := 42, updated_at := 9 }),
        replaceFirst [sampleProduct] "a" ({ sampleProduct with price := 42, updated_at := 9 })) ∧
    sampleProduct.updated_at <
      ({ sampleProduct with price := 42, updated_at := 9 } : Product).updated_at) :=
  ⟨by decide, by decide, by decide,
    update_price_frame [sampleProduct] "a" 42 9 sampleProduct (by decide) (by decide) (by decide)⟩

/-- C5: on an existing product, `update` with a payload supplying no
non-null field (absent and explicitly-null fields are
indistinguishable) succeeds, returns the product unchanged — in
particular `updated_at` is untouched — and leaves the store
unchanged. -/
theorem update_no_fields_noop (s : Store) (pid : String) (u : UpdatePayload) (now : Nat)
    (existing : Product) (hfind : s.find? (fun p => p.id == pid) = some existing)
    (hnone : hasUpdates u = false) :
    update_product s pid u now = (.ok existing, s) := by
  obtain rfl := eq_default_of_not_hasUpdates hnone
  simp [update_product, validateUpdate, checkOpt, hfind, hasUpdates, product_helper]

theorem update_no_fields_noop_witness :
    hasUpdates {} = false ∧
    update_product [sampleProduct] "a" {} 9 = (.ok sampleProduct, [sampleProduct]) :=
  ⟨rfl, update_no_fields_noop [sampleProduct] "a" {} 9 sampleProduct (by decide) rfl⟩

/-- C9: on an existing product and a payload with at least one non-null
field, `update` fails with `InternalError` exactly when the store
reports zero documents modified despite the match — in this model, when
the `$set` leaves the document unchanged; otherwise it returns the
freshly re-read updated document. -/
theorem update_internalError_iff (s : Store) (pid : String) (u : UpdatePayload) (now : Nat)
    (existing : Product) (hval : validateUpdate u = [])
    (hfind : s.find? (fun p => p.id == pid) = some existing)
    (hupd : hasUpdates u = true) :
    ((update_product s pid u now).1 = .error .internalError ↔
      applyUpdate existing u now = existing) ∧
    (applyUpdate existing u now ≠ existing →
      update_product s pid u now =
        (.ok (applyUpdate existing u now),
          replaceFirst s pid (applyUpdate existing u now))) := by
  have hid : (applyUpdate existing u now).id = pid := by
    simpa [applyUpdate] using id_eq_of_find? hfind
  by_cases heq : applyUpdate existing u now = existing
  · constructor
    · simp [update_product, hval, hfind, hupd, heq]
    · intro h
      exact absurd heq h
  · have hre := find?_replaceFirst hid hfind
    constructor
    · simp [update_product, hval, hfind, hupd, heq, hre, product_helper]
    · intro _
      simp [update_product, hval, hfind, hupd, heq, hre, product_helper]

theorem update_internalError_iff_witness :
    hasUpdates ({ price := some 10 } : UpdatePayload) = true ∧
    (((update_product [sampleProduct] "a" { price := some 10 } 1).1 =
        .error .internalError ↔
      applyUpdate sampleProduct { price := some 10 } 1 = sampleProduct) ∧
    (applyUpdate sampleProduct { price := some 10 } 1 ≠ sampleProduct →
      update_product [sampleProduct] "a" { price := some 10 } 1 =
        (.ok (applyUpdate sampleProduct { price := some 10 } 1),
          replaceFirst [sampleProduct] "a"
            (applyUpdate sampleProduct { price := some 10 } 1)))) :=
  ⟨rfl, update_internalError_iff [sampleProduct] "a" { price := some 10 } 1 sampleProduct
    (by decide) (by decide) rfl⟩

/-- C10: for every store, skip, limit and non-empty category string, the
dedicated category endpoint returns exactly the same sequence as the
list endpoint with that category filter. -/
theorem category_paths_equivalent (s : Store) (skip limit : Nat) (c : String)
    (hc : c ≠ "") :
    get_products s skip limit (some c) = get_products_by_category s c skip limit := by
  unfold get_products get_products_by_category
  simp [hc]

theorem category_paths_equivalent_witness :
    ("Kitchen" : String) ≠ "" ∧
    get_products [sampleProduct] 0 50 (some "Kitchen") =
      get_products_by_category [sampleProduct] "Kitchen" 0 50 :=
  ⟨by decide, category_paths_equivalent [sampleProduct] 0 50 "Kitchen" (by decide)⟩

/-- C3: for every store, skip, positive limit and category option, the
list endpoint returns at most `limit` products, ordered by `created_at`
descending; and when a category filter is present the result is exactly
the skip/limit window over the descending-sorted sequence of the
products whose category contains the filter as a case-insensitive
substring — in particular every returned product matches the filter. -/
theorem get_products_window_spec (s : Store) (skip limit : Nat) (category : Option String)
    (hlim : 0 < limit) :
    (get_products s skip limit category).length ≤ limit ∧
    List.Sorted createdDesc (get_products s skip limit category) ∧
    ∀ c, category = some c →
      get_products s skip limit category =
        ((sortByCreatedDesc (s.filter (fun p => matchesCategory c p))).drop skip).take
          limit ∧
      ∀ p ∈ get_products s skip limit category, matchesCategory c p = true := by
  have hlim0 : limit ≠ 0 := Nat.pos_iff_ne_zero.mp hlim
  have hwin : ∀ l : List Product, applyWindow l skip limit = (l.drop skip).take limit := by
    intro l
    unfold applyWindow
    rw [if_neg hlim0]
  have hlen : ∀ l : List Product, (applyWindow l skip limit).length ≤ limit := by
    intro l
    rw [hwin, List.length_take]
    exact min_le_left _ _
  have hsorted : ∀ l : List Product,
      List.Sorted createdDesc (applyWindow (sortByCreatedDesc l) skip limit) := by
    intro l
    have hs : List.Sorted createdDesc (sortByCreatedDesc l) := by
      unfold sortByCreatedDesc
      exact List.sorted_insertionSort createdDesc l
    have hsub : (applyWindow (sortByCreatedDesc l) skip limit).Sublist
        (sortByCreatedDesc l) := by
      rw [hwin]
      exact (List.take_sublist _ _).trans (List.drop_sublist _ _)
    exact List.Pairwise.sublist hsub hs
  refine ⟨?_, ?_, ?_⟩
  · simp only [get_products, map_product_helper]
    exact hlen _
  · simp only [get_products, map_product_helper]
    exact hsorted _
  · intro c hc
    subst hc
    have hfilter : s.filter (fun p => if c = "" then true else matchesCategory c p) =
        s.filter (fun p => matchesCategory c p) := by
      by_cases hc0 : c = ""
      · subst hc0
        have h1 : s.filter
            (fun p => if ("" : String) = "" then true else matchesCategory "" p) = s := by
          simp
        have h2 : s.filter (fun p => matchesCategory "" p) = s :=
          List.filter_eq_self.mpr (fun p _ => matchesCategory_empty p)
        rw [h1, h2]
      · simp [hc0]
    constructor
    · simp only [get_products, map_product_helper, hfilter, hwin]
    · intro p hp
      simp only [get_products, map_product_helper, hfilter, hwin] at hp
      have h1 : p ∈ sortByCreatedDesc (s.filter (fun q => matchesCategory c q)) :=
        ((List.take_sublist _ _).trans (List.drop_sublist _ _)).subset hp
      have h2 : p ∈ s.filter (fun q => matchesCategory c q) := by
        unfold sortByCreatedDesc at h1
        exact (List.perm_insertionSort createdDesc _).subset h1
      exact (List.mem_filter.mp h2).2

theorem get_products_window_spec_witness :
    0 < 50 ∧
    ((get_products [sampleProduct] 0 50 (some "kitCH")).length ≤ 50 ∧
    List.Sorted createdDesc (get_products [sampleProduct] 0 50 (some "kitCH")) ∧
    ∀ c, (some "kitCH" : Option String) = some c →
      get_products [sampleProduct] 0 50 (some "kitCH") =
        ((sortByCreatedDesc
            ([sampleProduct].filter (fun p => matchesCategory c p))).drop 0).take 50 ∧
      ∀ p ∈ get_products [sampleProduct] 0 50 (some "kitCH"),
        matchesCategory c p = true) :=
  ⟨by decide, get_products_window_spec [sampleProduct] 0 50 (some "kitCH") (by decide)⟩

/-- A concrete create payload violating the price constraint. -/
def badPriceInput : ProductInput := { sampleInput with price := -1 }

/-- C6: a create input violating a field constraint fails with
`ValidationError` whose field list names the offending field (and only
genuinely offending fields), and nothing is persisted; instantiated in
the witness at `price = -1` with all other fields valid. -/
theorem create_invalid_input (s : Store) (input : ProductInput) (pid : String) (now : Nat)
    (f : String) (hf : fieldViolated input f) :
    ∃ fs, create_product s input pid now = (.error (.validationError fs), s) ∧
      f ∈ fs ∧ ∀ g ∈ fs, fieldViolated input g := by
  have hmem : f ∈ validateCreate input := mem_validateCreate.mpr hf
  cases hv : validateCreate input with
  | nil =>
    rw [hv] at hmem
    exact absurd hmem (List.not_mem_nil f)
  | cons a as =>
    rw [hv] at hmem
    refine ⟨a :: as, ?_, hmem, ?_⟩
    · simp [create_product, hv]
    · intro g hg
      rw [← hv] at hg
      exact mem_validateCreate.mp hg

theorem create_invalid_input_witness :
    fieldViolated badPriceInput "price" ∧
    ∃ fs, create_product [] badPriceInput "b" 0 = (.error (.validationError fs), []) ∧
      "price" ∈ fs ∧ ∀ g ∈ fs, fieldViolated badPriceInput g :=
  ⟨by decide, create_invalid_input [] badPriceInput "b" 0 "price" (by decide)⟩

/-- C7: every operation preserves the store invariant — stored products
satisfy all field constraints, ids are unique, and
`created_at ≤ updated_at` — given that create's generated id is fresh
and update's clock value is not before any stored `created_at`. -/
theorem ops_preserve_invariant (s : Store) (hinv : StoreInv s) :
    (∀ input pid now, (∀ p ∈ s, p.id ≠ pid) →
      StoreInv (create_product s input pid now).2) ∧
    (∀ pid u now, (∀ p ∈ s, p.created_at ≤ now) →
      StoreInv (update_product s pid u now).2) ∧
    (∀ pid, StoreInv (delete_product s pid).2) := by
  obtain ⟨hall, hnodup⟩ := hinv
  refine ⟨?_, ?_, ?_⟩
  · intro input pid now hfresh
    rw [create_product_state]
    split
    · next hv =>
      constructor
      · intro p hp
        rcases List.mem_append.mp hp with h | h
        · exact hall p h
        · have hpd : p = newDoc input pid now := by simpa using h
          subst hpd
          obtain ⟨h1, h2, h3, h4, h5⟩ := validateCreate_eq_nil.mp hv
          refine ⟨?_, le_refl _⟩
          simp only [newDoc, validProduct]
          tauto
      · rw [List.map_append, List.nodup_append]
        refine ⟨hnodup, by simp, ?_⟩
        intro x hx
        obtain ⟨p, hp, rfl⟩ := List.mem_map.mp hx
        simp only [List.map_cons, List.map_nil, List.mem_singleton, newDoc]
        exact hfresh p hp
    · exact ⟨hall, hnodup⟩
  · intro pid u now hnow
    rcases update_product_state s pid u now with h | ⟨hv, _, existing, hfind, h⟩
    · rw [h]
      exact ⟨hall, hnodup⟩
    · rw [h]
      have hid : (applyUpdate existing u now).id = pid := by
        simpa [applyUpdate] using id_eq_of_find? hfind
      have hmem := mem_of_find? hfind
      constructor
      · intro p hp
        rcases mem_replaceFirst hp with rfl | hps
        · refine ⟨validProduct_applyUpdate (hall existing hmem).1 hv, ?_⟩
          simpa [applyUpdate] using hnow existing hmem
        · exact hall p hps
      · rw [map_id_replaceFirst hid]
        exact hnodup
  · intro pid
    rw [delete_product_state]
    constructor
    · intro p hp
      exact hall p ((List.eraseP_sublist s).subset hp)
    · exact List.Nodup.sublist ((List.eraseP_sublist s).map _) hnodup

theorem ops_preserve_invariant_witness :
    StoreInv [sampleProduct] ∧
    StoreInv ((create_product [sampleProduct] sampleInput "b" 5).2) ∧
    StoreInv ((update_product [sampleProduct] "a" { price := some 42 } 5).2) ∧
    StoreInv ((delete_product [sampleProduct] "a").2) := by
  have h := ops_preserve_invariant [sampleProduct] (by decide)
  exact ⟨by decide, h.1 sampleInput "b" 5 (by decide),
    h.2.1 "a" { price := some 42 } 5 (by decide), h.2.2 "a"⟩

theorem idAbsent_applyOp {s : Store} {i : String} {op : Op}
    (habs : idAbsent s i) (hop : ¬ createsId op i) : idAbsent (applyOp s op) i := by
  cases op with
  | create input pid now =>
    have hpid : pid ≠ i := fun h => hop (by simpa [createsId] using h)
    simp only [applyOp]
    rw [create_product_state]
    split
    · intro p hp
      rcases List.mem_append.mp hp with h | h
      · exact habs p h
      · have hpd : p = newDoc input pid now := by simpa using h
        subst hpd
        simpa [newDoc] using hpid
    · exact habs
  | update pid u now =>
    simp only [applyOp]
    rcases update_product_state s pid u now with h | ⟨_, _, existing, hfind, h⟩
    · rw [h]
      exact habs
    · rw [h]
      intro p hp
      rcases mem_replaceFirst hp with rfl | hps
      · have hsame : (applyUpdate existing u now).id = existing.id := by
          simp [applyUpdate]
        rw [hsame]
        exact habs existing (mem_of_find? hfind)
      · exact habs p hps
  | delete pid =>
    simp only [applyOp]
    rw [delete_product_state]
    intro p hp
    exact habs p ((List.eraseP_sublist s).subset hp)

theorem idAbsent_runOps {s : Store} {i : String} (ops : List Op)
    (habs : idAbsent s i) (hops : ∀ op ∈ ops, ¬ createsId op i) :
    idAbsent (runOps s ops) i := by
  induction ops generalizing s with
  | nil => exact habs
  | cons op rest ih =>
    exact ih (idAbsent_applyOp habs (hops op (List.mem_cons_self _ _)))
      (fun o ho => hops o (List.mem_cons_of_mem _ ho))

/-- C8: deleting an existing product succeeds with no returned value,
and every subsequent `getById` of that id — after any sequence of
further operations none of which creates that id — fails with
`NotFound`. -/
theorem delete_then_get_notFound (s : Store) (pid : String)
    (hex : ∃ p ∈ s, p.id = pid) (huniq : (s.map (fun p => p.id)).Nodup) :
    delete_product s pid = (.ok (), s.eraseP (fun p => p.id == pid)) ∧
    ∀ ops : List Op, (∀ op ∈ ops, ¬ createsId op pid) →
      get_product (runOps (s.eraseP (fun p => p.id == pid)) ops) pid =
        .error (.notFound pid) := by
  obtain ⟨p0, hp0, hpid⟩ := hex
  have hany : s.any (fun p => p.id == pid) = true :=
    List.any_eq_true.mpr ⟨p0, hp0, by simp [hpid]⟩
  constructor
  · simp [delete_product, hany]
  · intro ops hops
    have habs := idAbsent_runOps ops (idAbsent_eraseP huniq) hops
    simp [get_product, find?_id_eq_none habs]

theorem delete_then_get_notFound_witness :
    (∃ p ∈ ([sampleProduct] : Store), p.id = "a") ∧
    (delete_product [sampleProduct] "a" =
        (.ok (), ([sampleProduct] : Store).eraseP (fun p => p.id == "a")) ∧
      ∀ ops : List Op, (∀ op ∈ ops, ¬ createsId op "a") →
        get_product
            (runOps (([sampleProduct] : Store).eraseP (fun p => p.id == "a")) ops) "a" =
          .error (.notFound "a")) :=
  ⟨⟨sampleProduct, by decide, rfl⟩,
    delete_then_get_notFound [sampleProduct] "a" ⟨sampleProduct, by decide, rfl⟩
      (by decide)⟩

end ProductService
